import Mathlib

/-!
Shallow embedding of the core of the WritePoetry notebook: dataset
splitting, batch sampling, the causal attention mask, the positional
embedding lookup of the transformer stack, the train/eval mode state
machine of the training loop, and the autoregressive generation loop.
Token ids are modelled as integers, tensor rows as lists, and float
scores as rationals; minus infinity in the attention mask is the bottom
element of WithBot.
-/

namespace WritePoetry

/-- Hyperparameter batch_size = 16 from cell 4 of the notebook. -/
def batch_size : Nat := 16

/-- Hyperparameter block_size = 32 from cell 4 of the notebook. -/
def block_size : Nat := 32

/-! ## Dataset splitter (cell 4): n = int(0.9*len(data)); train = data[:n]; val = data[n:] -/

/-- Models n = int(f*len(data)) for a nonnegative fraction: the floor of
the product, clamped to Nat as Python int() does for nonnegative values.
The notebook hardcodes f = 0.9. -/
def splitIndex (f : ℚ) (len : Nat) : Nat := (⌊f * (len : ℚ)⌋).toNat

/-- Models train_data = data[:n], val_data = data[n:] with n = splitIndex. -/
def splitData (f : ℚ) (ids : List ℤ) : List ℤ × List ℤ :=
  (ids.take (splitIndex f ids.length), ids.drop (splitIndex f ids.length))

/-! ## Batch sampler (cell 4): get_batch -/

/-- Failure mode of get_batch: torch.randint(0, hi, ...) raises when
hi <= 0, which happens exactly when len(data) - block_size <= 0. The
spec names this failure InsufficientData. -/
inductive BatchError
  | insufficientData
  deriving DecidableEq

/-- Models data = train_data if split == "train" else val_data. -/
def selectSplit (split : String) (train val : List ℤ) : List ℤ :=
  if split = "train" then train else val

/-- Models x row data[i:i+block_size]. -/
def inputWindow (data : List ℤ) (o : Nat) : List ℤ := (data.drop o).take block_size

/-- Models y row data[i+1:i+block_size+1]. -/
def targetWindow (data : List ℤ) (o : Nat) : List ℤ := (data.drop (o + 1)).take block_size

/-- Models get_batch. The random draws of torch.randint are injected as
the list draws of offsets; the call errors exactly when the selected
split is too short for torch.randint to have a nonempty range. -/
def get_batch (split : String) (train val : List ℤ) (draws : List Nat) :
    Except BatchError (List (List ℤ) × List (List ℤ)) :=
  if (selectSplit split train val).length ≤ block_size then
    Except.error BatchError.insufficientData
  else
    Except.ok (draws.map (inputWindow (selectSplit split train val)),
               draws.map (targetWindow (selectSplit split train val)))

/-- Probability mass function of torch.randint(0, hi, ...): uniform on
the integer range [0, hi). -/
def uniformRandint (hi : Nat) (o : Nat) : ℚ := if o < hi then ((hi : ℚ))⁻¹ else 0

/-! ## Theorems for the splitter -/

/-- Claim C2: for every id sequence and nonnegative split fraction f
(default 0.9), the splitter returns train = ids[0:floor(f*len(ids))] and
val = ids[floor(f*len(ids)):] with no shuffling, so the two halves
concatenate back to the input, their lengths sum to len(ids), train
precedes val, and the slices are contiguous and disjoint. -/
theorem split_preserves_order (f : ℚ) (ids : List ℤ) (hf : 0 ≤ f) :
    splitData f ids =
      (ids.take (splitIndex f ids.length), ids.drop (splitIndex f ids.length)) ∧
    (splitData f ids).1 ++ (splitData f ids).2 = ids ∧
    (splitData f ids).1.length + (splitData f ids).2.length = ids.length ∧
    ((splitIndex f ids.length : ℤ) = ⌊f * (ids.length : ℚ)⌋) := by
  refine ⟨rfl, ?_, ?_, ?_⟩
  · exact List.take_append_drop _ ids
  · simp only [splitData, List.length_take, List.length_drop]
    omega
  · exact Int.toNat_of_nonneg (Int.floor_nonneg.mpr (mul_nonneg hf (Nat.cast_nonneg _)))

/-- Witness for split_preserves_order at f = 9/10 on a ten-id corpus. -/
theorem split_preserves_order_witness :
    (0 : ℚ) ≤ 9 / 10 ∧
    (splitData (9 / 10) [3, 1, 4, 1, 5, 9, 2, 6, 5, 3] =
      ([3, 1, 4, 1, 5, 9, 2, 6, 5, 3].take
        (splitIndex (9 / 10) ([3, 1, 4, 1, 5, 9, 2, 6, 5, 3] : List ℤ).length),
       [3, 1, 4, 1, 5, 9, 2, 6, 5, 3].drop
        (splitIndex (9 / 10) ([3, 1, 4, 1, 5, 9, 2, 6, 5, 3] : List ℤ).length)) ∧
    (splitData (9 / 10) [3, 1, 4, 1, 5, 9, 2, 6, 5, 3]).1 ++
      (splitData (9 / 10) [3, 1, 4, 1, 5, 9, 2, 6, 5, 3]).2 =
        [3, 1, 4, 1, 5, 9, 2, 6, 5, 3] ∧
    (splitData (9 / 10) [3, 1, 4, 1, 5, 9, 2, 6, 5, 3]).1.length +
      (splitData (9 / 10) [3, 1, 4, 1, 5, 9, 2, 6, 5, 3]).2.length =
        ([3, 1, 4, 1, 5, 9, 2, 6, 5, 3] : List ℤ).length ∧
    ((splitIndex (9 / 10) ([3, 1, 4, 1, 5, 9, 2, 6, 5, 3] : List ℤ).length : ℤ) =
      ⌊(9 / 10 : ℚ) * (([3, 1, 4, 1, 5, 9, 2, 6, 5, 3] : List ℤ).length : ℚ)⌋)) :=
  ⟨by norm_num, split_preserves_order (9 / 10) [3, 1, 4, 1, 5, 9, 2, 6, 5, 3] (by norm_num)⟩

/-! ## Theorems for the batch sampler error case -/

/-- Claim C6: for every split whose length is at most block_size (in
particular equal to block_size), a batch request fails with
InsufficientData rather than returning a degenerate batch. -/
theorem get_batch_insufficient_data (split : String) (train val : List ℤ)
    (draws : List Nat) (h : (selectSplit split train val).length ≤ block_size) :
    get_batch split train val draws = Except.error BatchError.insufficientData := by
  unfold get_batch
  rw [if_pos h]

/-- Witness for get_batch_insufficient_data on a validation split of
length exactly block_size. -/
theorem get_batch_insufficient_data_witness :
    (selectSplit "val" [] (List.replicate 32 0)).length ≤ block_size ∧
    get_batch "val" [] (List.replicate 32 0) [0, 1] =
      Except.error BatchError.insufficientData :=
  ⟨by decide, get_batch_insufficient_data "val" [] (List.replicate 32 0) [0, 1] (by decide)⟩

/-! ## Claim C7: the splitter performs no validation -/

/-- Counterexample to claim C7: on a ten-id corpus with block_size = 32,
both resulting halves are shorter than block_size + 1, yet the splitter
returns the two slices normally instead of failing with InvalidSplit —
the source has no failure path at all. -/
theorem split_no_invalid_split_cex :
    (splitData (9 / 10) [3, 1, 4, 1, 5, 9, 2, 6, 5, 3]).1.length < block_size + 1 ∧
    (splitData (9 / 10) [3, 1, 4, 1, 5, 9, 2, 6, 5, 3]).2.length < block_size + 1 ∧
    splitData (9 / 10) [3, 1, 4, 1, 5, 9, 2, 6, 5, 3] =
      ([3, 1, 4, 1, 5, 9, 2, 6, 5], [3]) := by
  have h : splitIndex (9 / 10) ([3, 1, 4, 1, 5, 9, 2, 6, 5, 3] : List ℤ).length = 9 := by
    unfold splitIndex
    norm_num
    rfl
  unfold splitData
  rw [h]
  decide

/-- Claim C7 amended: the splitter never fails: for every fraction and
id sequence it returns the two slices unchecked, whose concatenation is
the input; a half shorter than block_size + 1 is not rejected by the
splitter, and the failure only surfaces later, when get_batch on that
half fails with InsufficientData. -/
theorem split_never_rejects (f : ℚ) (ids : List ℤ) :
    (splitData f ids).1 ++ (splitData f ids).2 = ids ∧
    ((splitData f ids).2.length ≤ block_size →
      ∀ draws : List Nat,
        get_batch "val" (splitData f ids).1 (splitData f ids).2 draws =
          Except.error BatchError.insufficientData) := by
  constructor
  · exact List.take_append_drop _ ids
  · intro h draws
    have hval : selectSplit "val" (splitData f ids).1 (splitData f ids).2 =
        (splitData f ids).2 := by
      unfold selectSplit
      rw [if_neg (show ("val" : String) ≠ "train" by decide)]
    unfold get_batch
    rw [hval, if_pos h]

/-- Witness for split_never_rejects on the ten-id corpus. -/
theorem split_never_rejects_witness :
    get_batch "val" (splitData (9 / 10) [3, 1, 4, 1, 5, 9, 2, 6, 5, 3]).1
        (splitData (9 / 10) [3, 1, 4, 1, 5, 9, 2, 6, 5, 3]).2 [0] =
      Except.error BatchError.insufficientData :=
  (split_never_rejects (9 / 10) [3, 1, 4, 1, 5, 9, 2, 6, 5, 3]).2
    (by simp only [splitData, List.length_drop, List.length_cons, List.length_nil,
          block_size]; omega) [0]

/-! ## Claim C10: any split string other than "train" selects the validation data -/

/-- Claim C10: get_batch does not validate its split argument: every
string other than exactly "train" (for example "Train") silently selects
the validation split and behaves exactly like the "val" call; only the
exact string "train" selects the training split. -/
theorem get_batch_split_string_fallback (s : String) (train val : List ℤ)
    (draws : List Nat) (h : s ≠ "train") :
    selectSplit s train val = val ∧
    get_batch s train val draws = get_batch "val" train val draws ∧
    (block_size < val.length →
      get_batch s train val draws =
        Except.ok (draws.map (inputWindow val), draws.map (targetWindow val))) ∧
    selectSplit "train" train val = train := by
  have hsel : selectSplit s train val = val := by
    unfold selectSplit
    rw [if_neg h]
  have hval : selectSplit "val" train val = val := by
    unfold selectSplit
    rw [if_neg (by decide)]
  refine ⟨hsel, ?_, ?_, ?_⟩
  · unfold get_batch
    rw [hsel, hval]
  · intro hlen
    unfold get_batch
    rw [hsel, if_neg (by omega)]
  · unfold selectSplit
    rw [if_pos rfl]

/-- Witness for get_batch_split_string_fallback at the misspelled split
string "Train". -/
theorem get_batch_split_string_fallback_witness :
    selectSplit "Train" [7] [1, 2] = [1, 2] ∧
    get_batch "Train" [7] [1, 2] [] = get_batch "val" [7] [1, 2] [] ∧
    (block_size < ([1, 2] : List ℤ).length →
      get_batch "Train" [7] [1, 2] [] =
        Except.ok (([] : List Nat).map (inputWindow [1, 2]),
                   ([] : List Nat).map (targetWindow [1, 2]))) ∧
    selectSplit "train" [7] [1, 2] = [7] :=
  get_batch_split_string_fallback "Train" [7] [1, 2] [] (by decide)

/-! ## Claim C3: batch rows are shifted contiguous windows, offsets uniform -/

/-- Dropping one element of a take of a successor length yields the take
of the tail, the slice identity behind the one-position target shift. -/
theorem take_succ_drop_one (l : List ℤ) (k : Nat) :
    (l.take (k + 1)).drop 1 = (l.drop 1).take k := by
  cases l <;> simp

/-- Claim C3: on a split longer than block_size, get_batch succeeds and
every row with offset o has inputs[row] = split[o : o+block_size] and
targets[row] = split[o+1 : o+block_size+1]; both windows come from the
same (block_size+1)-long contiguous window, so the target window is the
input window shifted by exactly one position inside the same split; in
range, windows have full length block_size; and the offset distribution
of torch.randint is the uniform one on [0, len(split) - block_size):
it sums to 1 there and vanishes outside. -/
theorem get_batch_windows (split : String) (train val : List ℤ) (draws : List Nat)
    (h : block_size < (selectSplit split train val).length) :
    get_batch split train val draws =
      Except.ok (draws.map (inputWindow (selectSplit split train val)),
                 draws.map (targetWindow (selectSplit split train val))) ∧
    (∀ o : Nat,
      inputWindow (selectSplit split train val) o =
        (((selectSplit split train val).drop o).take (block_size + 1)).take block_size ∧
      targetWindow (selectSplit split train val) o =
        (((selectSplit split train val).drop o).take (block_size + 1)).drop 1) ∧
    (∀ o : Nat, o < (selectSplit split train val).length - block_size →
      (inputWindow (selectSplit split train val) o).length = block_size ∧
      (targetWindow (selectSplit split train val) o).length = block_size) ∧
    (∑ o ∈ Finset.range ((selectSplit split train val).length - block_size),
      uniformRandint ((selectSplit split train val).length - block_size) o) = 1 ∧
    (∀ o : Nat, (selectSplit split train val).length - block_size ≤ o →
      uniformRandint ((selectSplit split train val).length - block_size) o = 0) := by
  refine ⟨?_, ?_, ?_, ?_, ?_⟩
  · unfold get_batch
    rw [if_neg (by omega)]
  · intro o
    constructor
    · unfold inputWindow
      rw [List.take_take]
      rw [Nat.min_eq_left (Nat.le_succ block_size)]
    · unfold targetWindow
      rw [take_succ_drop_one, List.drop_drop]
  · intro o ho
    unfold inputWindow targetWindow
    constructor <;> simp only [List.length_take, List.length_drop] <;> omega
  · have hpos : 0 < (selectSplit split train val).length - block_size := by omega
    rw [Finset.sum_congr rfl
      (fun o ho => show uniformRandint _ o = (((selectSplit split train val).length -
          block_size : Nat) : ℚ)⁻¹ by
        unfold uniformRandint
        rw [if_pos (Finset.mem_range.mp ho)])]
    rw [Finset.sum_const, Finset.card_range, nsmul_eq_mul]
    exact mul_inv_cancel₀ (Nat.cast_ne_zero.mpr (Nat.pos_iff_ne_zero.mp hpos))
  · intro o ho
    unfold uniformRandint
    rw [if_neg (by omega)]

/-- Witness for get_batch_windows on a 33-id training split with a
single sampled offset 0. -/
theorem get_batch_windows_witness :
    block_size < (selectSplit "train" ((List.range 33).map Int.ofNat) []).length ∧
    (get_batch "train" ((List.range 33).map Int.ofNat) [] [0] =
      Except.ok ([0].map (inputWindow (selectSplit "train" ((List.range 33).map Int.ofNat) [])),
                 [0].map (targetWindow (selectSplit "train" ((List.range 33).map Int.ofNat) []))) ∧
    (∀ o : Nat,
      inputWindow (selectSplit "train" ((List.range 33).map Int.ofNat) []) o =
        (((selectSplit "train" ((List.range 33).map Int.ofNat) []).drop o).take
          (block_size + 1)).take block_size ∧
      targetWindow (selectSplit "train" ((List.range 33).map Int.ofNat) []) o =
        (((selectSplit "train" ((List.range 33).map Int.ofNat) []).drop o).take
          (block_size + 1)).drop 1) ∧
    (∀ o : Nat,
      o < (selectSplit "train" ((List.range 33).map Int.ofNat) []).length - block_size →
      (inputWindow (selectSplit "train" ((List.range 33).map Int.ofNat) []) o).length =
        block_size ∧
      (targetWindow (selectSplit "train" ((List.range 33).map Int.ofNat) []) o).length =
        block_size) ∧
    (∑ o ∈ Finset.range
        ((selectSplit "train" ((List.range 33).map Int.ofNat) []).length - block_size),
      uniformRandint
        ((selectSplit "train" ((List.range 33).map Int.ofNat) []).length - block_size) o) = 1 ∧
    (∀ o : Nat,
      (selectSplit "train" ((List.range 33).map Int.ofNat) []).length - block_size ≤ o →
      uniformRandint
        ((selectSplit "train" ((List.range 33).map Int.ofNat) []).length - block_size) o = 0)) :=
  ⟨by decide, get_batch_windows "train" ((List.range 33).map Int.ofNat) [] [0] (by decide)⟩

/-! ## Attention block (cell 6, MHA.forward): the causal mask

The mask is built as
mask = (torch.triu(torch.ones(T, T)) == 1).transpose(0, 1)
mask = mask.float().masked_fill(mask == 0, -inf).masked_fill(mask == 1, 0.0)
and passed to nn.MultiheadAttention as an additive attn_mask, which adds
it to the scaled dot-product scores before the row softmax. Minus
infinity is modelled as the bottom element of WithBot, whose
exponential weight is 0. -/

/-- Entry (i, j) of torch.triu(torch.ones(T, T)): 1 on and above the
diagonal. -/
def triuOnes (i j : Nat) : ℚ := if i ≤ j then 1 else 0

/-- Entry (i, j) of the additive causal mask: the boolean tensor is the
transpose of (triu(ones) == 1), and masked_fill sends its false entries
(future positions j > i) to minus infinity and its true entries to 0. -/
def attnMaskEntry (i j : Nat) : WithBot ℚ :=
  if triuOnes j i = 1 then ((0 : ℚ) : WithBot ℚ) else ⊥

/-- Score matrix entry after the additive mask, as computed inside
nn.MultiheadAttention for one head of one batch row: the finite scaled
dot-product score plus the mask entry. -/
def maskedScore (score : Nat → Nat → ℚ) (i j : Nat) : WithBot ℚ :=
  ((score i j : ℚ) : WithBot ℚ) + attnMaskEntry i j

/-- Exponential weight of a masked score under softmax: masked entries
(minus infinity) weigh 0, finite entries weigh e applied to the score,
where e abstracts the real exponential (exp(-inf) = 0, so this is exact
float softmax behaviour). -/
def expWeight (e : ℚ → ℚ) (x : WithBot ℚ) : ℚ :=
  WithBot.recBotCoe 0 e x

/-- Softmax attention weight of query position i on key position j over
a window of length T, for one head of one batch row. -/
def attnWeight (e : ℚ → ℚ) (T : Nat) (score : Nat → Nat → ℚ) (i j : Nat) : ℚ :=
  expWeight e (maskedScore score i j) /
    ∑ k ∈ Finset.range T, expWeight e (maskedScore score i k)

/-- Claim C1: for every window length T, every score matrix (hence every
head and every batch row), and every position i, the masked score matrix
assigns minus infinity to every future position j > i before the
softmax, and therefore after the softmax the total attention weight on
positions j > i is exactly zero. -/
theorem causal_mask_zero_future (T : Nat) (score : Nat → Nat → ℚ) (e : ℚ → ℚ) (i : Nat) :
    (∀ j : Nat, i < j → maskedScore score i j = ⊥) ∧
    (∑ j ∈ (Finset.range T).filter (fun j => i < j),
      attnWeight e T score i j) = 0 := by
  have hmask : ∀ j : Nat, i < j → maskedScore score i j = ⊥ := by
    intro j hij
    unfold maskedScore attnMaskEntry triuOnes
    rw [if_neg (by omega : ¬ j ≤ i)]
    rw [if_neg (by norm_num)]
    exact WithBot.add_bot _
  refine ⟨hmask, Finset.sum_eq_zero ?_⟩
  intro j hj
  have hij : i < j := (Finset.mem_filter.mp hj).2
  unfold attnWeight
  rw [hmask j hij]
  show (0 : ℚ) / _ = 0
  exact zero_div _

/-- Witness for causal_mask_zero_future at a concrete window of length
2, zero scores and constant exponential, at query position 0. -/
theorem causal_mask_zero_future_witness :
    (∀ j : Nat, 0 < j → maskedScore (fun _ _ => (0 : ℚ)) 0 j = ⊥) ∧
    (∑ j ∈ (Finset.range 2).filter (fun j => 0 < j),
      attnWeight (fun _ => (1 : ℚ)) 2 (fun _ _ => (0 : ℚ)) 0 j) = 0 :=
  causal_mask_zero_future 2 (fun _ _ => (0 : ℚ)) (fun _ => (1 : ℚ)) 0

/-! ## Transformer stack (cell 6, Transformer.forward): positional lookup

Transformer.forward computes x + pos_emb(torch.arange(x.shape[1])) where
pos_emb = nn.Embedding(block_size, n_embd); an index at or beyond the
table size makes the embedding lookup raise, which the spec names
ContextOverflow. -/

/-- Failure mode of the stack forward pass. -/
inductive ModelError
  | contextOverflow
  deriving DecidableEq

/-- Models an nn.Embedding lookup on a list of indices against a table
with numEmb rows: an index at or beyond numEmb raises. -/
def embeddingLookup {V : Type} (numEmb : Nat) (table : Nat → V) :
    List Nat → Except ModelError (List V)
  | [] => Except.ok []
  | i :: rest =>
    if i < numEmb then
      match embeddingLookup numEmb table rest with
      | Except.ok vs => Except.ok (table i :: vs)
      | Except.error er => Except.error er
    else Except.error ModelError.contextOverflow

/-- Models pos_emb(torch.arange(T)) with pos_emb a table of block_size
rows. -/
def posEmbForward {V : Type} (table : Nat → V) (T : Nat) : Except ModelError (List V) :=
  embeddingLookup block_size table (List.range T)

/-- Models Transformer.forward on one batch row of token ids: the token
embedding of each id plus the positional embedding of its index,
followed by the blocks, the final layer norm and the projection,
abstracted as rest. Only the positional lookup can fail. -/
def transformerForward {V : Type} (tokTable : ℤ → V) (posTable : Nat → V)
    (addE : V → V → V) (rest : List V → List V) (ids : List ℤ) :
    Except ModelError (List V) :=
  match posEmbForward posTable ids.length with
  | Except.error er => Except.error er
  | Except.ok pos => Except.ok (rest (List.zipWith addE (ids.map tokTable) pos))

/-- An embedding lookup on indices that are all within the table
succeeds and returns the mapped rows. -/
theorem embeddingLookup_ok {V : Type} (numEmb : Nat) (table : Nat → V)
    (l : List Nat) (h : ∀ i ∈ l, i < numEmb) :
    embeddingLookup numEmb table l = Except.ok (l.map table) := by
  induction l with
  | nil => rfl
  | cons a t ih =>
    unfold embeddingLookup
    rw [if_pos (h a (List.mem_cons_self a t))]
    rw [ih (fun i hi => h i (List.mem_cons_of_mem a hi))]
    rfl

/-- An embedding lookup on a list containing an out-of-table index
fails with ContextOverflow. -/
theorem embeddingLookup_overflow {V : Type} (numEmb : Nat) (table : Nat → V)
    (l : List Nat) (h : ∃ i ∈ l, numEmb ≤ i) :
    embeddingLookup numEmb table l = Except.error ModelError.contextOverflow := by
  induction l with
  | nil => exact absurd h (by simp)
  | cons a t ih =>
    unfold embeddingLookup
    by_cases ha : a < numEmb
    · rw [if_pos ha]
      have ht : ∃ i ∈ t, numEmb ≤ i := by
        obtain ⟨i, hi, hni⟩ := h
        rcases List.mem_cons.mp hi with rfl | hit
        · omega
        · exact ⟨i, hit, hni⟩
      rw [ih ht]
    · rw [if_neg ha]

/-- Claim C8: for every window length T at most block_size, the
positional lookup over the indices 0..T-1 succeeds, and the stack
forward pass succeeds on any in-vocabulary id window of that length;
for T exceeding block_size, both fail with ContextOverflow. -/
theorem pos_emb_context_overflow {V : Type} (tokTable : ℤ → V) (posTable : Nat → V)
    (addE : V → V → V) (rest : List V → List V) (ids : List ℤ) (T : Nat) :
    (posEmbForward posTable T =
      if T ≤ block_size then Except.ok ((List.range T).map posTable)
      else Except.error ModelError.contextOverflow) ∧
    (transformerForward tokTable posTable addE rest ids =
      if ids.length ≤ block_size then
        Except.ok (rest (List.zipWith addE (ids.map tokTable)
          ((List.range ids.length).map posTable)))
      else Except.error ModelError.contextOverflow) := by
  have hpos : ∀ n : Nat, posEmbForward posTable n =
      if n ≤ block_size then Except.ok ((List.range n).map posTable)
      else Except.error ModelError.contextOverflow := by
    intro n
    by_cases hn : n ≤ block_size
    · rw [if_pos hn]
      exact embeddingLookup_ok block_size posTable (List.range n)
        (fun i hi => by have := List.mem_range.mp hi; omega)
    · rw [if_neg hn]
      exact embeddingLookup_overflow block_size posTable (List.range n)
        ⟨block_size, List.mem_range.mpr (by omega), le_refl _⟩
  refine ⟨hpos T, ?_⟩
  unfold transformerForward
  rw [hpos ids.length]
  by_cases hl : ids.length ≤ block_size
  · rw [if_pos hl, if_pos hl]
  · rw [if_neg hl, if_neg hl]

/-! ## Generation sampler (cell 9)

seq = encode(seed); repeat: context = seq[:, -block_size:];
p = softmax(model(context)[:, -1]); next_word = multinomial(p, 1);
seq = cat([seq, next_word]). The composite of the model forward, the
final-position softmax and the multinomial draw is abstracted as the
injected function sample from a context to the next id. -/

/-- Models context = seq[:, -block_size:], the last min(len, block_size)
ids of the current sequence. -/
def lastContext (l : List ℤ) : List ℤ := l.drop (l.length - block_size)

/-- Models the generation loop: each step appends exactly one id,
sampled from the model output on the truncated context. -/
def generate (sample : List ℤ → ℤ) (seed : List ℤ) : Nat → List ℤ
  | 0 => seed
  | n + 1 =>
    generate sample seed n ++ [sample (lastContext (generate sample seed n))]

/-- Length of the generated sequence after n steps. -/
theorem generate_length (sample : List ℤ → ℤ) (seed : List ℤ) (n : Nat) :
    (generate sample seed n).length = seed.length + n := by
  induction n with
  | zero => rfl
  | succ n ih =>
    unfold generate
    rw [List.length_append, ih]
    rfl

/-- Claim C4: the generation loop appends exactly one sampled id per
step and returns the full extended sequence: after n steps the output
has length len(seed) + n, its first len(seed) ids are the seed
unchanged, each step extends the previous sequence by one id sampled
from the truncated context, and that context is exactly the last
min(len(seq), block_size) ids of the current sequence. -/
theorem generate_extends_seed (sample : List ℤ → ℤ) (seed : List ℤ) (n : Nat) :
    (generate sample seed n).length = seed.length + n ∧
    (generate sample seed n).take seed.length = seed ∧
    (∀ m : Nat, generate sample seed (m + 1) =
      generate sample seed m ++ [sample (lastContext (generate sample seed m))]) ∧
    (∀ l : List ℤ, (lastContext l).length = min l.length block_size ∧
      l.take (l.length - block_size) ++ lastContext l = l) := by
  refine ⟨generate_length sample seed n, ?_, fun m => rfl, ?_⟩
  · induction n with
    | zero => exact List.take_length seed
    | succ n ih =>
      unfold generate
      rw [List.take_append_of_le_length]
      · exact ih
      · rw [generate_length]
        omega
  · intro l
    constructor
    · unfold lastContext
      rw [List.length_drop]
      omega
    · exact List.take_append_drop _ l

/-! ## Trainer mode state machine (cell 8) and the generation mode (cell 9)

The model starts in the PyTorch default Training mode. Each loop step
runs the training update; when (step+1) % 200 == 0 it additionally calls
model.eval(), computes the validation loss, and calls model.train().
The generation cell runs after the loop and never calls model.eval(). -/

/-- Train or eval mode of the nn.Module tree. -/
inductive Mode
  | training
  | evaluating
  deriving DecidableEq

/-- Models nn.Dropout under a mode: active in Training, the identity in
Evaluating, with drop abstracting the stochastic thinning. -/
def dropoutApply (m : Mode) (drop : ℚ → ℚ) (x : ℚ) : ℚ :=
  match m with
  | Mode.training => drop x
  | Mode.evaluating => x

/-- Net effect of one loop iteration on the mode: the eval branch sets
Evaluating and then restores Training; other iterations leave the mode
unchanged. -/
def modeAfterStep (m : Mode) (step : Nat) : Mode :=
  if (step + 1) % 200 = 0 then Mode.training else m

/-- Mode of the model after running numSteps iterations of the training
loop from the initial Training mode. -/
def modeAfterTraining (numSteps : Nat) : Mode :=
  (List.range numSteps).foldl modeAfterStep Mode.training

/-- One loop iteration never leaves the Training mode behind. -/
theorem modeAfterStep_training (step : Nat) :
    modeAfterStep Mode.training step = Mode.training := by
  unfold modeAfterStep
  split <;> rfl

/-- Folding the loop steps from Training always ends in Training. -/
theorem foldl_modeAfterStep (l : List Nat) :
    l.foldl modeAfterStep Mode.training = Mode.training := by
  induction l with
  | nil => rfl
  | cons a t ih =>
    rw [List.foldl_cons, modeAfterStep_training, ih]

/-- Claim C5 is violated by the code: after the 1000-step training loop
the model is left in Training mode (step 999 takes the eval branch and
then calls model.train()), and the generation cell never calls
model.eval(), so every generation forward pass runs with the model in
Training mode and dropout is applied, not a no-op. -/
theorem generation_mode_is_training :
    modeAfterTraining 1000 = Mode.training ∧
    (∀ (drop : ℚ → ℚ) (x : ℚ),
      dropoutApply (modeAfterTraining 1000) drop x = drop x) := by
  have h : modeAfterTraining 1000 = Mode.training := foldl_modeAfterStep _
  exact ⟨h, fun drop x => by rw [h]; rfl⟩

/-! ## Trainer eval branch (cell 8): frame property of the validation step -/

/-- State of the trainer: the model parameters (abstract) and the mode
of the nn.Module tree. -/
structure TrainerState (P : Type) where
  params : P
  mode : Mode

/-- Models the eval branch of the training loop: model.eval(), one
validation forward pass and loss (no backward, no optimizer call),
then model.train(); returns the new state and the reported loss. -/
def evalBranch {P : Type} (lossOf : P → Mode → ℚ) (s : TrainerState P) :
    TrainerState P × ℚ :=
  ⟨⟨s.params, Mode.training⟩, lossOf s.params Mode.evaluating⟩

/-- Models one full loop iteration: the training update (backward,
optimizer step, gradient reset, abstracted as update) always runs,
and the eval branch runs exactly when (step + 1) % 200 == 0. -/
def trainerStep {P : Type} (update : P → P) (lossOf : P → Mode → ℚ)
    (step : Nat) (s : TrainerState P) : TrainerState P :=
  if (step + 1) % 200 = 0 then
    (evalBranch lossOf ⟨update s.params, s.mode⟩).1
  else
    ⟨update s.params, s.mode⟩

/-- Claim C9: on every K-th step (K = 200, i.e. (step+1) % 200 == 0) the
trainer switches to Evaluating, computes the validation loss in
Evaluating mode for reporting only, performs no backward pass or
optimizer update on it — so the parameters after the step are exactly
the ones produced by the training update, unchanged by the validation
evaluation — and switches back to Training mode. -/
theorem eval_branch_preserves_params (P : Type) (update : P → P)
    (lossOf : P → Mode → ℚ) (step : Nat) (s : TrainerState P)
    (h : (step + 1) % 200 = 0) :
    (trainerStep update lossOf step s).params = update s.params ∧
    (trainerStep update lossOf step s).mode = Mode.training ∧
    (∀ t : TrainerState P, (evalBranch lossOf t).1.params = t.params) ∧
    (∀ t : TrainerState P, (evalBranch lossOf t).1.mode = Mode.training) ∧
    (∀ t : TrainerState P, (evalBranch lossOf t).2 = lossOf t.params Mode.evaluating) := by
  unfold trainerStep
  rw [if_pos h]
  exact ⟨rfl, rfl, fun t => rfl, fun t => rfl, fun t => rfl⟩

/-- Witness for eval_branch_preserves_params at step 199 with rational
parameters, a concrete update and a constant loss. -/
theorem eval_branch_preserves_params_witness :
    (199 + 1) % 200 = 0 ∧
    ((trainerStep (fun p => p + 1) (fun _ _ => (0 : ℚ)) 199
        (⟨5, Mode.training⟩ : TrainerState ℚ)).params = 5 + 1 ∧
    (trainerStep (fun p => p + 1) (fun _ _ => (0 : ℚ)) 199
        (⟨5, Mode.training⟩ : TrainerState ℚ)).mode = Mode.training ∧
    (∀ t : TrainerState ℚ, (evalBranch (fun _ _ => (0 : ℚ)) t).1.params = t.params) ∧
    (∀ t : TrainerState ℚ, (evalBranch (fun _ _ => (0 : ℚ)) t).1.mode = Mode.training) ∧
    (∀ t : TrainerState ℚ,
      (evalBranch (fun _ _ => (0 : ℚ)) t).2 = (fun _ _ => (0 : ℚ)) t.params Mode.evaluating)) :=
  ⟨by decide, eval_branch_preserves_params ℚ (fun p => p + 1) (fun _ _ => (0 : ℚ)) 199
    ⟨5, Mode.training⟩ (by decide)⟩

end WritePoetry
